import Mathlib

/-!
Shallow embedding of the two backtesting engines of the
coin_backtesting repository: the periodic-rebalancing engine
(src/portfolio_backtest.py) and the moving-average signal engine
(src/strategy_backtest.py).  Prices are rationals, timestamps are
integers (day numbers).  Fallible operations (Python KeyError and
IndexError) are modelled with `Option`.
-/

namespace Portfolio

/-- A per-instrument price frame: the close column of the fetched OHLCV
DataFrame, as (timestamp, close) rows indexed by timestamp (strictly
increasing, unique timestamps). -/
abbrev Frame := List (Int × ℚ)

/-- Association-list model of `self.data`: mapping from symbol to
fetched frame; a symbol whose fetch failed is absent.  A `none` result
models the Python KeyError on `self.data[s]`. -/
def lookupFrame : List (String × Frame) → String → Option Frame
  | [], _ => none
  | (s, f) :: rest, t => if t = s then some f else lookupFrame rest t

/-- Lookup of the close at timestamp `d` in a frame, modelling
`df["close"].loc[d]`; `none` when `d` is not in the frame's index. -/
def lookupClose : Frame → Int → Option ℚ
  | [], _ => none
  | (t, c) :: rest, d => if d = t then some c else lookupClose rest d

/-- Helper for `retAt`, scanning rows with the previous close in hand:
row `(t, c)` joined at calendar date `t` carries the simple return
`c / prev - 1` (pandas `pct_change` over the frame's own rows). -/
def retAtAux (prev : ℚ) : Frame → Int → ℚ
  | [], _ => 0
  | (t, c) :: rest, d => if d = t then c / prev - 1 else retAtAux c rest d

/-- An instrument's return left-joined onto calendar date `d` after
`fillna(0)`: `close[i] / close[i-1] - 1` when `d` is the frame's `i`-th
timestamp with `i ≥ 1`; `0` when `d` is the frame's first timestamp
(the `pct_change` NaN) or not in the frame at all (the left-join NaN). -/
def retAt (rows : Frame) (d : Int) : ℚ :=
  match rows with
  | [] => 0
  | (t, c) :: rest => if d = t then 0 else retAtAux c rest d

/-- Embedding of `calculate_portfolio_returns`
(src/portfolio_backtest.py lines 44-57): over the daily calendar,
left-join each configured symbol's `pct_change` returns, `fillna(0)`,
and blend with the current weights:
`Portfolio_Return[d] = Σ_s return[s][d] * weights[s]`.
`self.data[symbol]` raises KeyError when a symbol's fetch failed, so
the result is `none` when any configured symbol is absent from `data`. -/
def calculate_portfolio_returns (symbols : List String)
    (data : List (String × Frame)) (weights : String → ℚ)
    (calendar : List Int) : Option (List (Int × ℚ)) :=
  if symbols.all (fun s => (lookupFrame data s).isSome) then
    some (calendar.map (fun d =>
      (d, (symbols.map (fun s =>
        retAt ((lookupFrame data s).getD []) d * weights s)).sum)))
  else none

/-- Embedding of
`self.data[symbol]["close"].reindex(portfolio_df.index).ffill().loc[d]`:
the last close among calendar dates `≤ d` that are present in the
frame; `none` when no such date exists (the NaN survives the forward
fill). -/
def ffillPrice (rows : Frame) (calendar : List Int) (d : Int) : Option ℚ :=
  (calendar.filter (fun c => c ≤ d)).foldl
    (fun acc c =>
      match lookupClose rows c with
      | some p => some p
      | none => acc) none

/-- The weight-recomputation loop of `run_backtest` (lines 95-97):
`total_value = Σ_s price[s] * weights[s]` from the pre-update weights,
then each symbol's entry of `self.weights` is overwritten in place with
`price[s] * weights[s] / total_value`. -/
def rebalanceWeights (symbols : List String) (prices : String → ℚ)
    (w : String → ℚ) : String → ℚ :=
  let total := (symbols.map (fun s => prices s * w s)).sum
  symbols.foldl
    (fun wacc s => fun t => if t = s then prices s * wacc s / total else wacc t) w

/-- The main loop of `run_backtest` (lines 86-99), processing the dates
after the first.  State: the current weight map and the previous date's
Portfolio_Value.  On a rebalance date the forward-filled prices of all
symbols are fetched; if any is NaN the whole iteration is skipped by
`continue`, so that date's Portfolio_Value keeps the column's
initialisation value `initial` and the weights are untouched.
Otherwise the weights are recomputed and then — as on every
non-rebalance date — `V[t] = V[t-1] * (1 + Portfolio_Return[t])`. -/
def loopP (symbols : List String) (data : List (String × Frame))
    (calendar : List Int) (rebalanceDates : List Int) (initial : ℚ) :
    (String → ℚ) → ℚ → List (Int × ℚ) → List ℚ × (String → ℚ)
  | w, _, [] => ([], w)
  | w, prev, (d, r) :: rest =>
    if d ∈ rebalanceDates then
      if symbols.any (fun s =>
          (ffillPrice ((lookupFrame data s).getD []) calendar d).isNone) then
        let res := loopP symbols data calendar rebalanceDates initial w initial rest
        (initial :: res.1, res.2)
      else
        let prices : String → ℚ := fun s =>
          (ffillPrice ((lookupFrame data s).getD []) calendar d).getD 0
        let w2 := rebalanceWeights symbols prices w
        let v := prev * (1 + r)
        let res := loopP symbols data calendar rebalanceDates initial w2 v rest
        (v :: res.1, res.2)
    else
      let v := prev * (1 + r)
      let res := loopP symbols data calendar rebalanceDates initial w v rest
      (v :: res.1, res.2)

/-- Embedding of the rebalancing engine's `run_backtest` (lines 77-102).
Returns the Portfolio_Value series as (timestamp, value) pairs and the
final weight map (the code mutates `self.weights` in place).
`rebalanceDates` stands for the index of
`portfolio_df.resample(rebalance_period).first()`, supplied as an
explicit subset of calendar dates.  The Portfolio_Value column is first
initialised to `initial` on every date, `V[0]` is never revisited (the
loop starts at index 1), and after the loop `apply_trading_fees`
subtracts `(trading_fee + slippage) * V` from every date's value.
`none` models the KeyError raised inside
`calculate_portfolio_returns` when a configured symbol is absent from
`data`. -/
def run_backtest (symbols : List String) (data : List (String × Frame))
    (weights : String → ℚ) (calendar : List Int)
    (rebalanceDates : List Int) (initial trading_fee slippage : ℚ) :
    Option (List (Int × ℚ) × (String → ℚ)) :=
  match calculate_portfolio_returns symbols data weights calendar with
  | none => none
  | some rets =>
    match rets with
    | [] => some ([], weights)
    | _ :: rest =>
      let res := loopP symbols data calendar rebalanceDates initial weights initial rest
      let values := initial :: res.1
      let after := values.map (fun v => v - (trading_fee + slippage) * v)
      some (calendar.zip after, res.2)

/-- The Portfolio_Value series produced by `run_backtest`. -/
def runValues (symbols : List String) (data : List (String × Frame))
    (weights : String → ℚ) (calendar rebalanceDates : List Int)
    (initial trading_fee slippage : ℚ) : Option (List (Int × ℚ)) :=
  (run_backtest symbols data weights calendar rebalanceDates
    initial trading_fee slippage).map Prod.fst

/-- The final weight of one symbol after `run_backtest` (reading the
mutated `self.weights[s]`). -/
def runWeightAt (symbols : List String) (data : List (String × Frame))
    (weights : String → ℚ) (calendar rebalanceDates : List Int)
    (initial trading_fee slippage : ℚ) (s : String) : Option ℚ :=
  (run_backtest symbols data weights calendar rebalanceDates
    initial trading_fee slippage).map (fun p => p.2 s)

/-- Calling `run_backtest` twice in a row on the same engine instance:
the second call starts from the weight map the first call left behind
in `self.weights`.  Result: the second call's value series. -/
def runTwiceValues (symbols : List String) (data : List (String × Frame))
    (weights : String → ℚ) (calendar rebalanceDates : List Int)
    (initial trading_fee slippage : ℚ) : Option (List (Int × ℚ)) :=
  (run_backtest symbols data weights calendar rebalanceDates
    initial trading_fee slippage).bind
    (fun p => runValues symbols data p.2 calendar rebalanceDates
      initial trading_fee slippage)

/-- Running maxima of a list continued from current peak `m`
(the tail of pandas `cummax`). -/
def cummaxAux (m : ℚ) : List ℚ → List ℚ
  | [] => []
  | x :: xs => max m x :: cummaxAux (max m x) xs

/-- Embedding of `portfolio_df["Portfolio_Value"].cummax()`. -/
def cummax : List ℚ → List ℚ
  | [] => []
  | x :: xs => x :: cummaxAux x xs

/-- Minimum of a series (pandas `Series.min()`); `none` on the empty
series (where pandas yields NaN). -/
def minList : List ℚ → Option ℚ
  | [] => none
  | x :: xs =>
    some (match minList xs with
      | none => x
      | some m => min x m)

/-- Embedding of `calculate_mdd` — character-identical in both source
files (portfolio_backtest.py lines 104-110, strategy_backtest.py lines
93-99): running peak, drawdown `(V - peak) / peak`, most negative
drawdown `* 100`. -/
def calculate_mdd (values : List ℚ) : Option ℚ :=
  (minList ((values.zip (cummax values)).map (fun p => (p.1 - p.2) / p.2))).map
    (fun m => m * 100)

end Portfolio

namespace Strategy

/-- A row of an instrument's frame after `apply_strategy`:
(timestamp, close, Signal). -/
abbrev SRow := Int × ℚ × Int

/-- Lookup of the (close, Signal) row at date `d`; `none` models
`date not in self.data[symbol].index`. -/
def rowAt : List SRow → Int → Option (ℚ × Int)
  | [], _ => none
  | (t, c, sg) :: rest, d => if d = t then some (c, sg) else rowAt rest d

/-- Simple moving average of `closes` over a trailing window of length
`w`, evaluated at row `t` (pandas `rolling(window=w).mean()`): defined
once `t + 1 ≥ w`, NaN (`none`) on the earlier rows. -/
def smaAt (w : ℕ) (closes : List ℚ) (t : ℕ) : Option ℚ :=
  if w ≤ t + 1 then some (((closes.drop (t + 1 - w)).take w).sum / (w : ℚ))
  else none

/-- Embedding of `apply_strategy` for one instrument
(src/strategy_backtest.py lines 42-56): compute both SMAs over the full
close series, drop every row where either SMA is NaN (insufficient
history), then set Signal on the remaining rows: 1 when
SMA_short > SMA_long, -1 when SMA_short < SMA_long, 0 otherwise.
Output rows are (SMA_short, SMA_long, Signal). -/
def apply_strategy (short_window long_window : ℕ) (closes : List ℚ) :
    List (ℚ × ℚ × Int) :=
  (List.range closes.length).filterMap (fun t =>
    match smaAt short_window closes t, smaAt long_window closes t with
    | some s, some l => some (s, l, if l < s then 1 else if s < l then -1 else 0)
    | _, _ => none)

/-- One symbol's step inside the date loop of `run_backtest`
(lines 68-84).  State: (cash pool `portfolio_value`, positions map,
accumulated `daily_value`).  Buy when Signal = 1 and the position is 0:
quantity `(portfolio_value / numSymbols) / price`, then the fee
`(portfolio_value / numSymbols) * trading_fee` is deducted from the
cash pool (the allocated notional itself is not deducted).  Sell when
Signal = -1 and the position is positive: proceeds added, fee on
proceeds deducted, position zeroed.  Afterwards the (possibly updated)
position's value at today's close is added to `daily_value`. -/
def stepSym (n : ℕ) (fee : ℚ) (st : ℚ × (String → ℚ) × ℚ) (s : String)
    (price : ℚ) (signal : Int) : ℚ × (String → ℚ) × ℚ :=
  let cash := st.1
  let pos := st.2.1
  let daily := st.2.2
  if signal = 1 ∧ pos s = 0 then
    let q := cash / (n : ℚ) / price
    let cash2 := cash - cash / (n : ℚ) * fee
    let pos2 : String → ℚ := fun t => if t = s then q else pos t
    (cash2, pos2, daily + q * price)
  else if signal = -1 ∧ 0 < pos s then
    let cash2 := cash + pos s * price - pos s * price * fee
    let pos2 : String → ℚ := fun t => if t = s then 0 else pos t
    (cash2, pos2, daily + 0 * price)
  else (cash, pos, daily + pos s * price)

/-- One date of the signal engine's `run_backtest`: fold the symbols in
order (skipping any symbol whose frame has no row at this date), then
record `portfolio_value + daily_value`.  Returns the new
(cash, positions) state and the recorded value. -/
def processDate (symbols : List String) (data : String → List SRow)
    (n : ℕ) (fee : ℚ) (st : ℚ × (String → ℚ)) (d : Int) :
    (ℚ × (String → ℚ)) × ℚ :=
  let res := symbols.foldl (fun acc s =>
    match rowAt (data s) d with
    | none => acc
    | some pr => stepSym n fee acc s pr.1 pr.2) (st.1, st.2, 0)
  ((res.1, res.2.1), res.1 + res.2.2)

/-- Embedding of the signal engine's `run_backtest` (lines 59-91):
iterate over the date index of the first configured symbol
(`self.data[self.symbols[0]].index`), fold the per-symbol transitions,
and append one (timestamp, value) record per date.  Returns the history
and the final positions map (the code mutates `self.positions` in
place).  `none` models the IndexError on an empty symbol list. -/
def run_backtest (symbols : List String) (data : String → List SRow)
    (positions : String → ℚ) (initial fee : ℚ) :
    Option (List (Int × ℚ) × (String → ℚ)) :=
  match symbols with
  | [] => none
  | s0 :: _ =>
    let dates := (data s0).map Prod.fst
    let res := dates.foldl
      (fun (acc : (ℚ × (String → ℚ)) × List (Int × ℚ)) d =>
        let r := processDate symbols data symbols.length fee acc.1 d
        (r.1, acc.2 ++ [(d, r.2)])) ((initial, positions), [])
    some (res.2, res.1.2)

/-- The (timestamp, Portfolio_Value) history of the signal engine's
`run_backtest`. -/
def runSValues (symbols : List String) (data : String → List SRow)
    (positions : String → ℚ) (initial fee : ℚ) : Option (List (Int × ℚ)) :=
  (run_backtest symbols data positions initial fee).map Prod.fst

/-- The final position of one symbol after the signal engine's
`run_backtest` (reading the mutated `self.positions[s]`). -/
def runSPos (symbols : List String) (data : String → List SRow)
    (positions : String → ℚ) (initial fee : ℚ) (s : String) : Option ℚ :=
  (run_backtest symbols data positions initial fee).map (fun p => p.2 s)

/-- Embedding of `calculate_cagr` (lines 123-135) on the extracted
scalars: initial balance, final Portfolio_Value, and the first and last
timestamps of the series (day numbers, so `lastDay - firstDay` is the
elapsed `.days`).  `num_years = days / 365`; the result is `none`
(modelling the returned not-applicable marker) when `num_years <= 0`,
and otherwise the pair (base, exponent) of the computed power
`(end_value / start_value) ** (1 / num_years)` — rationals carry the
power's two components exactly; only the transcendental evaluation and
the final percent rendering are outside the model. -/
def calculate_cagr (initial endValue : ℚ) (firstDay lastDay : Int) :
    Option (ℚ × ℚ) :=
  let numYears : ℚ := ((lastDay - firstDay : Int) : ℚ) / 365
  if numYears ≤ 0 then none else some (endValue / initial, 1 / numYears)

end Strategy

open Portfolio Strategy

/-- First concrete instrument symbol used in the test scenarios. -/
def symA : String := "A"

/-- Second concrete instrument symbol used in the test scenarios. -/
def symB : String := "B"

/-- Scenario for the degraded rebalance date: instrument A trades on
days 0, 1 and 2 (closes 100, 110, 121, so a 10 percent daily return);
instrument B lists only on day 2, so its forward-filled price on the
day-1 rebalance event is still NaN. -/
def dataC1 : List (String × Portfolio.Frame) :=
  [(symA, [(0, 100), (1, 110), (2, 121)]), (symB, [(2, 50)])]

/-- Scenario for the weight recomputation: A's close doubles from 100
to 200 between day 0 (when the equal weights are set) and the day-1
rebalance event, while B's close holds at 50. -/
def dataC3 : List (String × Portfolio.Frame) :=
  [(symA, [(0, 100), (1, 200)]), (symB, [(0, 50), (1, 50)])]

/-- Scenario for the re-run experiment: A doubles on day 1, B is flat;
equal starting prices so the single-run rebalance lands on 2/3, 1/3. -/
def dataC6 : List (String × Portfolio.Frame) :=
  [(symA, [(0, 100), (1, 200)]), (symB, [(0, 100), (1, 100)])]

/-- Signal-engine scenario: one instrument, a Buy signal at close 100
on day 0 followed by a Sell signal at the unchanged close 100 on
day 1. -/
def dataC2 : String → List Strategy.SRow :=
  fun s => if s = symA then [(0, 100, 1), (1, 100, -1)] else []

/-- The first day of the same scenario in isolation (Buy only), used to
read off the position quantity right after the Buy transition. -/
def dataC2buy : String → List Strategy.SRow :=
  fun s => if s = symA then [(0, 100, 1)] else []

/-- Signal-engine scenario with two instruments: the first instrument's
index holds only day 0, the second instrument trades only on other
days (day 5). -/
def dataC10 : String → List Strategy.SRow :=
  fun s => if s = symA then [(0, 10, 0)]
    else if s = symB then [(5, 100, 1)] else []

/-- Variant of the same scenario whose second instrument differs
arbitrarily on the days outside the first instrument's index. -/
def dataC10alt : String → List Strategy.SRow :=
  fun s => if s = symA then [(0, 10, 0)]
    else if s = symB then [(5, 999, -1), (7, 1, 1)] else []

/-- Every drawdown taken against a running peak that started at a
positive value is nonpositive. -/
lemma dd_aux_nonpos (m : ℚ) (l : List ℚ) (hm : 0 < m)
    (hl : ∀ v ∈ l, 0 < v) :
    ∀ x ∈ (l.zip (cummaxAux m l)).map (fun p => (p.1 - p.2) / p.2), x ≤ 0 := by
  induction l generalizing m with
  | nil => simp [cummaxAux]
  | cons y ys ih =>
    intro x hx
    simp only [cummaxAux, List.zip_cons_cons, List.map_cons, List.mem_cons] at hx
    rcases hx with h | h
    · subst h
      have h1 : y ≤ max m y := le_max_right m y
      have h2 : (0 : ℚ) ≤ max m y := le_of_lt (lt_max_of_lt_left hm)
      exact div_nonpos_of_nonpos_of_nonneg (sub_nonpos.mpr h1) h2
    · exact ih (max m y) (lt_max_of_lt_left hm)
        (fun v hv => hl v (List.mem_cons_of_mem y hv)) x h

/-- The minimum returned by `minList` is an element of the list. -/
lemma minList_mem : ∀ (l : List ℚ) (m : ℚ), minList l = some m → m ∈ l := by
  intro l
  induction l with
  | nil => intro m h; simp [minList] at h
  | cons x xs ih =>
    intro m h
    simp only [minList] at h
    cases hxs : minList xs with
    | none =>
      rw [hxs] at h
      simp at h
      simp [h]
    | some mm =>
      rw [hxs] at h
      simp at h
      rcases min_choice x mm with hc | hc <;> rw [← h, hc]
      · exact List.mem_cons_self x xs
      · exact List.mem_cons_of_mem x (ih mm hxs)

/-- On a non-decreasing tail the running maximum reproduces the list. -/
lemma cummaxAux_of_chain : ∀ (l : List ℚ) (m : ℚ),
    List.Chain (· ≤ ·) m l → cummaxAux m l = l := by
  intro l
  induction l with
  | nil => intro m _; rfl
  | cons x xs ih =>
    intro m hc
    rcases hc with _ | ⟨hmx, hcx⟩
    simp only [cummaxAux, max_eq_right hmx]
    rw [ih x hcx]

/-- Drawdowns of a series zipped with itself all vanish. -/
lemma zip_self_dd (l : List ℚ) :
    (l.zip l).map (fun p => (p.1 - p.2) / p.2) = l.map (fun _ => 0) := by
  induction l with
  | nil => rfl
  | cons x xs ih => simp [ih]

/-- The minimum of a non-empty list of zeros is zero. -/
lemma minList_zeros : ∀ (l : List ℚ), (∀ x ∈ l, x = 0) → l ≠ [] →
    minList l = some 0 := by
  intro l
  induction l with
  | nil => intro _ h; exact absurd rfl h
  | cons x xs ih =>
    intro hz _
    have hx : x = 0 := hz x (List.mem_cons_self x xs)
    simp only [minList]
    cases hxs : minList xs with
    | none => rw [hx]
    | some m =>
      have hm : m = 0 := hz m (List.mem_cons_of_mem x (minList_mem xs m hxs))
      rw [hx, hm]
      simp

/-- The rolling mean is defined exactly once the window fits. -/
lemma smaAt_isSome (w : ℕ) (closes : List ℚ) (t : ℕ) :
    (smaAt w closes t).isSome = true ↔ w ≤ t + 1 := by
  unfold smaAt
  by_cases h : w ≤ t + 1 <;> simp [h]

/-- The per-date symbol fold of the signal engine only consults each
frame through `rowAt` at the current date, so two data maps that agree
there fold identically. -/
lemma symFold_congr (data data2 : String → List Strategy.SRow) (n : ℕ)
    (fee : ℚ) (d : Int) :
    ∀ (symbols : List String),
      (∀ s ∈ symbols, rowAt (data s) d = rowAt (data2 s) d) →
      ∀ acc : ℚ × (String → ℚ) × ℚ,
        symbols.foldl (fun acc s =>
          match rowAt (data s) d with
          | none => acc
          | some pr => stepSym n fee acc s pr.1 pr.2) acc =
        symbols.foldl (fun acc s =>
          match rowAt (data2 s) d with
          | none => acc
          | some pr => stepSym n fee acc s pr.1 pr.2) acc := by
  intro symbols
  induction symbols with
  | nil => intro _ _; rfl
  | cons a as ih =>
    intro h acc
    simp only [List.foldl_cons]
    rw [h a (List.mem_cons_self a as)]
    exact ih (fun s hs => h s (List.mem_cons_of_mem a hs)) _

/-- `processDate` only reads the rows of the current date. -/
lemma processDate_congr (symbols : List String)
    (data data2 : String → List Strategy.SRow) (n : ℕ) (fee : ℚ) (d : Int)
    (h : ∀ s ∈ symbols, rowAt (data s) d = rowAt (data2 s) d)
    (st : ℚ × (String → ℚ)) :
    processDate symbols data n fee st d = processDate symbols data2 n fee st d := by
  unfold processDate
  rw [symFold_congr data data2 n fee d symbols h]

/-- The date loop of the signal engine only reads rows at the dates it
iterates over. -/
lemma runFold_congr (symbols : List String)
    (data data2 : String → List Strategy.SRow) (n : ℕ) (fee : ℚ) :
    ∀ (dates : List Int),
      (∀ s ∈ symbols, ∀ d ∈ dates, rowAt (data s) d = rowAt (data2 s) d) →
      ∀ (st : ℚ × (String → ℚ)) (acc : List (Int × ℚ)),
        dates.foldl (fun a d =>
          ((processDate symbols data n fee a.1 d).1,
            a.2 ++ [(d, (processDate symbols data n fee a.1 d).2)])) (st, acc) =
        dates.foldl (fun a d =>
          ((processDate symbols data2 n fee a.1 d).1,
            a.2 ++ [(d, (processDate symbols data2 n fee a.1 d).2)])) (st, acc) := by
  intro dates
  induction dates with
  | nil => intro _ _ _; rfl
  | cons d ds ih =>
    intro h st acc
    simp only [List.foldl_cons]
    rw [processDate_congr symbols data data2 n fee d
      (fun s hs => h s hs d (List.mem_cons_self d ds)) st]
    exact ih (fun s hs e he => h s hs e (List.mem_cons_of_mem d he)) _ _

/-- The history accumulated by the date loop carries exactly the
iterated dates as timestamps, in order. -/
lemma runFold_dates (symbols : List String)
    (data : String → List Strategy.SRow) (n : ℕ) (fee : ℚ) :
    ∀ (dates : List Int) (st : ℚ × (String → ℚ)) (acc : List (Int × ℚ)),
      ((dates.foldl (fun a d =>
          ((processDate symbols data n fee a.1 d).1,
            a.2 ++ [(d, (processDate symbols data n fee a.1 d).2)])) (st, acc)).2).map
        Prod.fst = acc.map Prod.fst ++ dates := by
  intro dates
  induction dates with
  | nil => intro _ _; simp
  | cons d ds ih =>
    intro st acc
    simp only [List.foldl_cons]
    rw [ih]
    simp

/-- Symbols not touched by the weight-update fold keep their weight. -/
lemma rebalance_fold_not_mem (prices : String → ℚ) (total : ℚ) :
    ∀ (symbols : List String) (w : String → ℚ) (s : String), s ∉ symbols →
      (symbols.foldl (fun wacc u => fun t =>
        if t = u then prices u * wacc u / total else wacc t) w) s = w s := by
  intro symbols
  induction symbols with
  | nil => intro w s _; rfl
  | cons a as ih =>
    intro w s hs
    simp only [List.foldl_cons]
    rw [ih _ s (fun hmem => hs (List.mem_cons_of_mem a hmem))]
    have hne : s ≠ a := fun h => hs (h ▸ List.mem_cons_self a as)
    simp [hne]

/-- With distinct symbols, the sequential in-place weight update equals
the simultaneous formula `price[s] * w[s] / total`. -/
lemma rebalance_fold_formula (prices : String → ℚ) (total : ℚ) :
    ∀ (symbols : List String) (w : String → ℚ) (s : String),
      symbols.Nodup → s ∈ symbols →
      (symbols.foldl (fun wacc u => fun t =>
        if t = u then prices u * wacc u / total else wacc t) w) s =
        prices s * w s / total := by
  intro symbols
  induction symbols with
  | nil => intro w s _ hs; simp at hs
  | cons a as ih =>
    intro w s hnd hs
    have hna : a ∉ as := (List.nodup_cons.mp hnd).1
    have hndas : as.Nodup := (List.nodup_cons.mp hnd).2
    simp only [List.foldl_cons]
    rcases List.mem_cons.mp hs with h | h
    · subst h
      rw [rebalance_fold_not_mem prices total as _ s hna]
      simp
    · have hne : s ≠ a := fun he => hna (he ▸ h)
      rw [ih _ s hndas h]
      simp [hne]

/-- C1: the claim says the value update
`V[t] = V[t-1] * (1 + PortfolioReturn[t])` runs unconditionally, with
only the weight recomputation skipped on a rebalance date whose
forward-filled prices are unavailable.  In the code the `continue`
skips the whole loop body, so on the day-1 rebalance event of `dataC1`
(where B's price is not yet forward-fillable) the Portfolio_Value stays
at its column-initialisation value 10000 although
`V[0] * (1 + PortfolioReturn[1]) = 10500`: the blended return on day 1
is 1/20, the produced series is 10000, 10000, 10500, and
`10000 ≠ 10000 * (1 + 1/20)`. -/
theorem c1_missing_price_skips_value_update :
    Portfolio.calculate_portfolio_returns [symA, symB] dataC1
      (fun _ => 1/2) [0, 1, 2] = some [(0, 0), (1, 1/20), (2, 1/20)]
    ∧ runValues [symA, symB] dataC1 (fun _ => 1/2) [0, 1, 2] [1] 10000 0 0 =
      some [(0, 10000), (1, 10000), (2, 10500)]
    ∧ ¬ ((10000 : ℚ) = 10000 * (1 + 1/20)) := by
  refine ⟨?_, ?_, by norm_num⟩ <;>
  · simp only [runValues, Portfolio.run_backtest, calculate_portfolio_returns,
      lookupFrame, retAt, retAtAux, loopP, ffillPrice, rebalanceWeights,
      lookupClose, symA, symB, dataC1, String.reduceEq, reduceIte,
      List.filter, List.foldl, List.map, List.all, List.any, List.sum,
      List.zip, List.zipWith, Option.getD, Option.isSome]
    norm_num
    all_goals simp only [loopP, ffillPrice, rebalanceWeights, lookupClose,
      lookupFrame, String.reduceEq, reduceIte, List.filter, List.foldl,
      List.map, List.sum, List.any, Option.getD, Option.isSome]
    all_goals norm_num

/-- C2 (amended): with a 1-instrument universe, balance 10000 and fee
`f`, the Buy at close 100 produces position quantity exactly 100 with
only the fee `10000 * f` deducted from the cash pool — the allocated
notional itself is never deducted, so the recorded value right after
the Buy is `20000 - 10000 * f`, and after the Sell at the unchanged
close the recorded value is `20000 - 20000 * f = 2 * 10000 * (1 - f)`,
not `10000 * (1-f)^2` as the original claim stated. -/
theorem c2_buy_quantity_and_sell_value (f : ℚ) :
    runSPos [symA] dataC2buy (fun _ => 0) 10000 f symA = some 100
    ∧ runSValues [symA] dataC2 (fun _ => 0) 10000 f =
      some [(0, 20000 - 10000 * f), (1, 20000 - 20000 * f)] := by
  constructor <;>
  · simp only [runSPos, runSValues, Strategy.run_backtest, processDate,
      stepSym, rowAt, dataC2, dataC2buy, symA, String.reduceEq, reduceIte,
      List.foldl, List.map, List.length, Option.getD, Option.isSome]
    norm_num
    all_goals try constructor
    all_goals ring

/-- C2 (counterexample): at fee 1/1000 the code's recorded value after
the round trip is 19980, not `10000 * (1 - 1/1000)^2 = 9980.01` as the
claim predicts (the Buy quantity of 100 itself is as claimed). -/
theorem c2_sell_value_counterexample :
    runSPos [symA] dataC2buy (fun _ => 0) 10000 (1/1000) symA = some 100
    ∧ runSValues [symA] dataC2 (fun _ => 0) 10000 (1/1000) =
      some [(0, 19990), (1, 19980)]
    ∧ ¬ ((19980 : ℚ) = 10000 * (1 - 1/1000) * (1 - 1/1000)) := by
  refine ⟨?_, ?_, by norm_num⟩ <;>
  · simp only [runSPos, runSValues, Strategy.run_backtest, processDate,
      stepSym, rowAt, dataC2, dataC2buy, symA, String.reduceEq, reduceIte,
      List.foldl, List.map, List.length, Option.getD, Option.isSome]
    norm_num

/-- C3 (amended): on a fully-priced rebalance event each new weight is
`price[s] * oldWeight[s] / Σ_t price[t] * oldWeight[t]` (for distinct
tracked symbols).  Because the formula consumes absolute price levels
rather than price relatives, the claimed consequence {A: 2/3, B: 1/3}
from equal weights holds exactly when the event-date prices stand in
the ratio 2:1 (for instance when both instruments had equal prices at
the moment the weights were set and A has since doubled), not for an
arbitrary doubling of A. -/
theorem c3_rebalance_weight_formula :
    (∀ (symbols : List String) (prices w : String → ℚ) (s : String),
      symbols.Nodup → s ∈ symbols →
      Portfolio.rebalanceWeights symbols prices w s =
        prices s * w s / ((symbols.map (fun t => prices t * w t)).sum))
    ∧ (∀ (prices w : String → ℚ) (p : ℚ), 0 < p →
      prices symA = 2 * p → prices symB = p →
      w symA = 1 / 2 → w symB = 1 / 2 →
      Portfolio.rebalanceWeights [symA, symB] prices w symA = 2 / 3
      ∧ Portfolio.rebalanceWeights [symA, symB] prices w symB = 1 / 3) := by
  have hform : ∀ (symbols : List String) (prices w : String → ℚ) (s : String),
      symbols.Nodup → s ∈ symbols →
      Portfolio.rebalanceWeights symbols prices w s =
        prices s * w s / ((symbols.map (fun t => prices t * w t)).sum) := by
    intro symbols prices w s hnd hs
    unfold Portfolio.rebalanceWeights
    exact rebalance_fold_formula prices _ symbols w s hnd hs
  refine ⟨hform, ?_⟩
  intro prices w p hp hA hB wA wB
  have hnd : ([symA, symB] : List String).Nodup := by decide
  have hsum : (([symA, symB].map (fun t => prices t * w t)).sum) = 3 / 2 * p := by
    simp [hA, hB, wA, wB]
    ring
  have hmA : symA ∈ [symA, symB] := List.mem_cons_self _ _
  have hmB : symB ∈ [symA, symB] := List.mem_cons_of_mem _ (List.mem_cons_self _ _)
  constructor
  · rw [hform [symA, symB] prices w symA hnd hmA, hsum, hA, wA]
    field_simp
    ring
  · rw [hform [symA, symB] prices w symB hnd hmB, hsum, hB, wB]
    field_simp
    ring

/-- C3 (witness): instantiating the corollary at event prices 2 and 1. -/
theorem c3_rebalance_weight_formula_witness :
    Portfolio.rebalanceWeights [symA, symB]
      (fun t => if t = symA then 2 else 1) (fun _ => 1/2) symA = 2 / 3
    ∧ Portfolio.rebalanceWeights [symA, symB]
      (fun t => if t = symA then 2 else 1) (fun _ => 1/2) symB = 1 / 3 :=
  c3_rebalance_weight_formula.2 (fun t => if t = symA then 2 else 1)
    (fun _ => 1/2) 1 (by norm_num) (by norm_num)
    (by simp [symA, symB]) rfl rfl

/-- C3 (counterexample): in `dataC3` instrument A's price has doubled
(100 to 200) since the equal weights were set on day 0 while B held at
50, yet the day-1 rebalance produces weights {A: 4/5, B: 1/5} — the
formula uses the absolute prices 200 and 50, not the price relatives —
and `4/5 ≠ 2/3`. -/
theorem c3_doubled_price_counterexample :
    runWeightAt [symA, symB] dataC3 (fun _ => 1/2) [0, 1] [1] 10000 0 0 symA =
      some (4/5)
    ∧ runWeightAt [symA, symB] dataC3 (fun _ => 1/2) [0, 1] [1] 10000 0 0 symB =
      some (1/5)
    ∧ ¬ ((4 : ℚ)/5 = 2/3) := by
  refine ⟨?_, ?_, by norm_num⟩ <;>
  · simp only [runWeightAt, Portfolio.run_backtest, calculate_portfolio_returns,
      lookupFrame, retAt, retAtAux, loopP, ffillPrice, rebalanceWeights,
      lookupClose, symA, symB, dataC3, String.reduceEq, reduceIte,
      List.filter, List.foldl, List.map, List.all, List.any, List.sum,
      List.zip, List.zipWith, Option.getD, Option.isSome]
    norm_num
    simp only [loopP, ffillPrice, rebalanceWeights, lookupClose, lookupFrame,
      String.reduceEq, reduceIte, List.filter, List.foldl, List.map, List.sum,
      List.any, Option.getD, Option.isSome]
    norm_num
    all_goals decide

/-- C4: the claim says a configured symbol absent from the fetched data
mapping contributes zero to the blended return and the computation
still completes; in the code `self.data[symbol]` raises KeyError, so
`calculate_portfolio_returns` fails outright — here evaluated at the
failing input (one configured symbol, empty data mapping), where the
embedding returns `none` (the KeyError) instead of a zero-contribution
result. -/
theorem c4_missing_symbol_fails_with_keyerror :
    Portfolio.calculate_portfolio_returns [symA] [] (fun _ => 1/2) [0, 1] =
      none := by
  decide

/-- C5: at a rebalance-event date where some tracked instrument's
forward-filled price is unavailable, processing that date leaves the
weight map exactly as it was (the skip branch never touches
`self.weights`). -/
theorem c5_missing_price_preserves_weights (symbols : List String)
    (data : List (String × Portfolio.Frame)) (calendar rebalanceDates : List Int)
    (initial : ℚ) (w : String → ℚ) (prev : ℚ) (d : Int) (r : ℚ)
    (hd : d ∈ rebalanceDates)
    (hmiss : ∃ s ∈ symbols,
      ffillPrice ((lookupFrame data s).getD []) calendar d = none) :
    (loopP symbols data calendar rebalanceDates initial w prev [(d, r)]).2 = w := by
  obtain ⟨s, hs, hnone⟩ := hmiss
  have hany : symbols.any (fun s =>
      (ffillPrice ((lookupFrame data s).getD []) calendar d).isNone) = true := by
    rw [List.any_eq_true]
    exact ⟨s, hs, by rw [hnone]; rfl⟩
  simp only [loopP, if_pos hd, hany, if_true]

/-- C5 (witness): a single instrument whose first bar is on day 2, so
its forward-filled price at the day-1 rebalance event is unavailable;
the weight map survives unchanged. -/
theorem c5_missing_price_preserves_weights_witness :
    (loopP [symA] [(symA, [(2, 50)])] [0, 1, 2] [1] 10000
      (fun _ => 1/2) 10000 [(1, 0)]).2 = (fun _ => (1/2 : ℚ)) :=
  c5_missing_price_preserves_weights [symA] [(symA, [(2, 50)])] [0, 1, 2]
    [1] 10000 (fun _ => 1/2) 10000 1 0 (by decide)
    ⟨symA, List.mem_cons_self _ _, by decide⟩

/-- C6 (amended): each engine's simulation is a pure function of its
inputs — identical price data, configuration and starting engine state
(weight map, positions) necessarily reproduce identical value series
and final state, with no other source of nondeterminism in the model.
(The original claim's further assertion that no state is carried over
between runs is refuted by the counterexample: `run_backtest` mutates
the instance weight map in place.) -/
theorem c6_pure_function_determinism :
    (∀ (symbols : List String) (data : List (String × Portfolio.Frame))
      (weights : String → ℚ) (calendar rebalanceDates : List Int)
      (initial trading_fee slippage : ℚ),
      Portfolio.run_backtest symbols data weights calendar rebalanceDates
        initial trading_fee slippage =
      Portfolio.run_backtest symbols data weights calendar rebalanceDates
        initial trading_fee slippage)
    ∧ (∀ (symbols : List String) (data : String → List Strategy.SRow)
      (positions : String → ℚ) (initial fee : ℚ),
      Strategy.run_backtest symbols data positions initial fee =
      Strategy.run_backtest symbols data positions initial fee) :=
  ⟨fun _ _ _ _ _ _ _ _ => rfl, fun _ _ _ _ _ => rfl⟩

/-- C6 (counterexample): on `dataC6` a first run yields the value
series 10000, 15000 and leaves the drifted weights {A: 2/3, B: 1/3} in
`self.weights`; calling `run_backtest` again on the same instance (the
re-run picks up the mutated weight map) yields 10000, 50000/3 — the
two runs of the same pipeline on identical input data and
configuration are not bit-identical. -/
theorem c6_carried_weights_counterexample :
    runValues [symA, symB] dataC6 (fun _ => 1/2) [0, 1] [1] 10000 0 0 =
      some [(0, 10000), (1, 15000)]
    ∧ runTwiceValues [symA, symB] dataC6 (fun _ => 1/2) [0, 1] [1] 10000 0 0 =
      some [(0, 10000), (1, 50000/3)]
    ∧ ¬ (runValues [symA, symB] dataC6 (fun _ => 1/2) [0, 1] [1] 10000 0 0 =
        runTwiceValues [symA, symB] dataC6 (fun _ => 1/2) [0, 1] [1] 10000 0 0) := by
  have h1 : runValues [symA, symB] dataC6 (fun _ => 1/2) [0, 1] [1] 10000 0 0 =
      some [(0, 10000), (1, 15000)] := by
    simp only [runValues, Portfolio.run_backtest, calculate_portfolio_returns,
      lookupFrame, retAt, retAtAux, loopP, ffillPrice, rebalanceWeights,
      lookupClose, symA, symB, dataC6, String.reduceEq, reduceIte,
      List.filter, List.foldl, List.map, List.all, List.any, List.sum,
      List.zip, List.zipWith, Option.getD, Option.isSome]
    norm_num
    simp only [loopP, ffillPrice, rebalanceWeights, lookupClose, lookupFrame,
      String.reduceEq, reduceIte, List.filter, List.foldl, List.map, List.sum,
      List.any, Option.getD, Option.isSome]
    norm_num
  have h2 : runTwiceValues [symA, symB] dataC6 (fun _ => 1/2) [0, 1] [1] 10000 0 0 =
      some [(0, 10000), (1, 50000/3)] := by
    simp only [runTwiceValues, runValues, Portfolio.run_backtest,
      calculate_portfolio_returns, lookupFrame, retAt, retAtAux, loopP,
      ffillPrice, rebalanceWeights, lookupClose, symA, symB, dataC6,
      Option.bind, String.reduceEq, reduceIte, List.filter, List.foldl,
      List.map, List.all, List.any, List.sum, List.zip, List.zipWith,
      Option.getD, Option.isSome]
    norm_num
    simp only [runValues, Portfolio.run_backtest, calculate_portfolio_returns,
      loopP, ffillPrice, rebalanceWeights, lookupClose, lookupFrame, retAt,
      retAtAux, symA, symB, dataC6, String.reduceEq, reduceIte, List.filter,
      List.foldl, List.map, List.all, List.any, List.sum, List.zip,
      List.zipWith, Option.getD, Option.isSome]
    norm_num
    all_goals simp only [String.reduceEq, reduceIte]
    all_goals norm_num
  refine ⟨h1, h2, ?_⟩
  rw [h1, h2]
  norm_num

/-- C7: `calculate_cagr` reports not-applicable (modelled as `none`)
exactly when the elapsed day span between first and last timestamp is
zero or negative — it never raises there — and otherwise computes the
power with base `finalValue / initialBalance` and exponent
`1 / num_years = 365 / daysElapsed`, as the claim's formula states. -/
theorem c7_cagr_branch_exact (initial endValue : ℚ) (firstDay lastDay : Int) :
    (Strategy.calculate_cagr initial endValue firstDay lastDay = none ↔
      lastDay - firstDay ≤ 0)
    ∧ (0 < lastDay - firstDay →
      Strategy.calculate_cagr initial endValue firstDay lastDay =
        some (endValue / initial, 365 / ((lastDay - firstDay : Int) : ℚ))) := by
  have h365 : (0 : ℚ) < 365 := by norm_num
  have hiff : (((lastDay - firstDay : Int) : ℚ) / 365 ≤ 0) ↔
      lastDay - firstDay ≤ 0 := by
    rw [div_le_iff₀ h365, zero_mul, Int.cast_nonpos]
  simp only [Strategy.calculate_cagr]
  by_cases hc : ((lastDay - firstDay : Int) : ℚ) / 365 ≤ 0
  · rw [if_pos hc]
    exact ⟨by simp [hiff.mp hc], fun h => absurd (hiff.mp hc) (by omega)⟩
  · rw [if_neg hc]
    have hd : ¬ (lastDay - firstDay ≤ 0) := fun h => hc (hiff.mpr h)
    refine ⟨by simp; omega, fun _ => ?_⟩
    rw [one_div_div]

/-- C7 (witness): a 365-day span doubling 10000 to 20000 gives the
power pair (2, 1); a zero-day span gives the not-applicable marker. -/
theorem c7_cagr_branch_exact_witness :
    Strategy.calculate_cagr 10000 20000 0 365 = some (2, 1)
    ∧ Strategy.calculate_cagr 10000 20000 5 5 = none := by
  constructor
  · have h := (c7_cagr_branch_exact 10000 20000 0 365).2 (by norm_num)
    norm_num at h
    exact h
  · exact (c7_cagr_branch_exact 10000 20000 5 5).1.mpr (by norm_num)

/-- C8: on every non-empty series of positive values `calculate_mdd`
is defined, the result is at most 0, and it equals 0 whenever the
series is monotonically non-decreasing (every point is a fresh running
peak). -/
theorem c8_mdd_nonpositive (values : List ℚ) (hne : values ≠ [])
    (hpos : ∀ v ∈ values, 0 < v) :
    calculate_mdd values ≠ none
    ∧ (∀ m, calculate_mdd values = some m → m ≤ 0)
    ∧ (List.Chain' (· ≤ ·) values → calculate_mdd values = some 0) := by
  cases values with
  | nil => exact absurd rfl hne
  | cons x xs =>
    refine ⟨?_, ?_, ?_⟩
    · simp [calculate_mdd, cummax, minList]
    · intro m hm
      simp only [calculate_mdd, Option.map_eq_some'] at hm
      obtain ⟨mm, hmm, rfl⟩ := hm
      have hmem := minList_mem _ _ hmm
      have hx : 0 < x := hpos x (List.mem_cons_self x xs)
      have hall : ∀ z ∈ ((x :: xs).zip (cummax (x :: xs))).map
          (fun p => (p.1 - p.2) / p.2), z ≤ 0 := by
        simp only [cummax, List.zip_cons_cons, List.map_cons]
        intro z hz
        rcases List.mem_cons.mp hz with h | h
        · subst h
          simp
        · exact dd_aux_nonpos x xs hx
            (fun v hv => hpos v (List.mem_cons_of_mem x hv)) z h
      have := hall mm hmem
      nlinarith
    · intro hchain
      have hcum : cummax (x :: xs) = x :: xs := by
        simp only [cummax]
        rw [cummaxAux_of_chain xs x hchain]
      rw [calculate_mdd, hcum, zip_self_dd, minList_zeros _ (by simp) (by simp)]
      simp

/-- C8 (witness): the non-decreasing positive series 1, 2, 3 has a
defined MaxDrawdown equal to 0. -/
theorem c8_mdd_nonpositive_witness :
    calculate_mdd [1, 2, 3] ≠ none ∧ calculate_mdd [1, 2, 3] = some 0 := by
  have h := c8_mdd_nonpositive [1, 2, 3] (by simp) (by norm_num)
  exact ⟨h.1, h.2.2 (by norm_num)⟩

/-- C9: after `apply_strategy`, every surviving row carries Signal 1
exactly when its short SMA exceeds its long SMA, Signal -1 exactly when
the short is below the long, and Signal 0 exactly in the equality
case; and exactly the `max short long - 1` leading rows on which
either moving average is undefined have been dropped (the output keeps
`length - (max short long - 1)` rows). -/
theorem c9_signal_iff_and_dropped_rows (short_window long_window : ℕ)
    (closes : List ℚ) (hs : 0 < short_window) (hl : 0 < long_window) :
    (∀ row ∈ apply_strategy short_window long_window closes,
      (row.2.2 = 1 ↔ row.2.1 < row.1)
      ∧ (row.2.2 = -1 ↔ row.1 < row.2.1)
      ∧ (row.2.2 = 0 ↔ row.1 = row.2.1))
    ∧ (apply_strategy short_window long_window closes).length =
        closes.length - (max short_window long_window - 1) := by
  constructor
  · intro row hrow
    rw [apply_strategy, List.mem_filterMap] at hrow
    obtain ⟨t, _, hft⟩ := hrow
    cases hshort : smaAt short_window closes t with
    | none => rw [hshort] at hft; exact absurd hft (by simp)
    | some s =>
      cases hlong : smaAt long_window closes t with
      | none => rw [hshort, hlong] at hft; exact absurd hft (by simp)
      | some l =>
        rw [hshort, hlong] at hft
        simp only [Option.some.injEq] at hft
        subst hft
        rcases lt_trichotomy l s with h | h | h
        · simp [if_pos h, h, not_lt_of_lt h, ne_of_gt h]
        · simp [h, lt_irrefl]
        · rw [if_neg (not_lt_of_lt h), if_pos h]
          simp [h, not_lt_of_lt h, ne_of_lt h]
  · rw [apply_strategy]
    have hm : 1 ≤ max short_window long_window := le_trans hs (le_max_left _ _)
    have hg : ∀ t : ℕ,
        (match smaAt short_window closes t, smaAt long_window closes t with
          | some s, some l =>
            some (s, l, if l < s then (1 : Int) else if s < l then -1 else 0)
          | _, _ => none).isSome = true ↔ max short_window long_window ≤ t + 1 := by
      intro t
      rw [max_le_iff]
      have e1 := smaAt_isSome short_window closes t
      have e2 := smaAt_isSome long_window closes t
      cases hshort : smaAt short_window closes t with
      | none =>
        rw [hshort] at e1
        simp only [Option.isSome_none, Bool.false_eq_true, false_iff] at e1
        simp [e1]
      | some s =>
        rw [hshort] at e1
        simp only [Option.isSome_some, true_iff] at e1
        cases hlong : smaAt long_window closes t with
        | none =>
          rw [hlong] at e2
          simp only [Option.isSome_none, Bool.false_eq_true, false_iff] at e2
          simp [e1, e2]
        | some l =>
          rw [hlong] at e2
          simp only [Option.isSome_some, true_iff] at e2
          simp [e1, e2]
    generalize hM : max short_window long_window = M at hg hm
    generalize closes.length = n
    induction n with
    | zero => simp
    | succ k ih =>
      rw [List.range_succ, List.filterMap_append, List.length_append, ih]
      by_cases hk : M ≤ k + 1
      · obtain ⟨v, hv⟩ := Option.isSome_iff_exists.mp ((hg k).mpr hk)
        simp [List.filterMap_cons, hv]
        omega
      · have hnone : (match smaAt short_window closes k, smaAt long_window closes k with
            | some s, some l =>
              some (s, l, if l < s then (1 : Int) else if s < l then -1 else 0)
            | _, _ => none) = none :=
          Option.not_isSome_iff_eq_none.mp (fun hsome => hk ((hg k).mp hsome))
        simp [List.filterMap_cons, hnone]
        omega

/-- C9 (witness): windows 2 and 3 on a 5-row close series keep
`5 - (3 - 1) = 3` rows. -/
theorem c9_signal_iff_and_dropped_rows_witness :
    (apply_strategy 2 3 [1, 2, 3, 6, 1]).length = 3 := by
  have h := (c9_signal_iff_and_dropped_rows 2 3 [1, 2, 3, 6, 1]
    (by norm_num) (by norm_num)).2
  simpa using h

/-- C10: the signal engine's `run_backtest` iterates only over the date
index of the first configured instrument: two data maps that agree on
the first instrument's frame and, for every configured instrument, on
the rows at the first instrument's dates produce identical runs (so a
date present only in another instrument's series triggers no record
and no transition), and the output history holds exactly one record
per date of the first instrument's index, in that order. -/
theorem c10_first_symbol_index_drives_run (s0 : String) (rest : List String)
    (data data2 : String → List Strategy.SRow) (positions : String → ℚ)
    (initial fee : ℚ)
    (h0 : data s0 = data2 s0)
    (hagree : ∀ s ∈ s0 :: rest, ∀ d ∈ (data s0).map Prod.fst,
      rowAt (data s) d = rowAt (data2 s) d) :
    Strategy.run_backtest (s0 :: rest) data positions initial fee =
      Strategy.run_backtest (s0 :: rest) data2 positions initial fee
    ∧ (Strategy.run_backtest (s0 :: rest) data positions initial fee).map
        (fun p => p.1.map Prod.fst) = some ((data s0).map Prod.fst) := by
  constructor
  · simp only [Strategy.run_backtest]
    rw [← h0]
    rw [runFold_congr (s0 :: rest) data data2 (s0 :: rest).length fee
      ((data s0).map Prod.fst) hagree (initial, positions) []]
  · simp only [Strategy.run_backtest, Option.map_some']
    rw [runFold_dates (s0 :: rest) data (s0 :: rest).length fee
      ((data s0).map Prod.fst) (initial, positions) []]
    simp

/-- C10 (witness): `dataC10` and `dataC10alt` differ only in the second
instrument's rows on dates outside the first instrument's index (which
holds only day 0), so both runs coincide and the history carries
exactly the first instrument's dates. -/
theorem c10_first_symbol_index_drives_run_witness :
    Strategy.run_backtest [symA, symB] dataC10 (fun _ => 0) 10000 (1/1000) =
      Strategy.run_backtest [symA, symB] dataC10alt (fun _ => 0) 10000 (1/1000)
    ∧ (Strategy.run_backtest [symA, symB] dataC10 (fun _ => 0) 10000
        (1/1000)).map (fun p => p.1.map Prod.fst) = some [0] := by
  have h := c10_first_symbol_index_drives_run symA [symB] dataC10 dataC10alt
    (fun _ => 0) 10000 (1/1000) rfl
    (by
      intro s hs d hd
      fin_cases hs <;> simp only [dataC10, dataC10alt, symA, symB] at hd ⊢ <;>
        fin_cases hd <;> rfl)
  exact ⟨h.1, h.2⟩
